import Mathlib

/-!
Shallow embedding of the keyword-extraction pipeline of `src/app.py`
(a Streamlit SEO-article ideation app).

The algorithmic core of the repository is:

* `STOP_WORDS` (app.py lines 42-45) — a bilingual CZ+EN stop-word set;
* `keyword_frequency` (app.py lines 95-101) —
    `tokens = re.findall(r"[\p\x7bL\x7d]+", text.lower(), re.UNICODE)`
    `tokens = [t for t in tokens if t not in STOP_WORDS and len(t) > 2]`
    `counts = Counter(tokens)`
    `return counts.most_common(top_n)`;
* `fetch_html` (app.py lines 65-78) — returns the response body, or `""` on
  any `requests.RequestException`;
* the analysis loop (app.py lines 171-200) — concatenates each document's
  extracted text into `all_text` (initialised to `""`, each step appends
  `" " + text`) and computes `global_kw = keyword_frequency(all_text)`.

The regex `[\p\x7bL\x7d]+` denotes maximal runs of Unicode letters (the class
`\p\x7bL\x7d` of PCRE / the third-party `regex` module): digits, underscores and
all other non-letter code points break runs.  (CPython's `re` module in fact
rejects this escape at runtime — `re.error: bad escape \p` — which is recorded
in the verification results; the embedding models the pattern's denotation.)

Character model: the embedding covers the character repertoire the app's
Czech/English corpus exercises — ASCII, the Latin-1 Supplement and Latin
Extended-A (U+0000..U+017F), plus the stray letters ª µ º.  `LOWER_MAP` is the
restriction of Python's `str.lower` to that repertoire (the sole code point
with a multi-character lowercase expansion, U+0130 İ, is left unchanged).
Code points above U+017F are treated as non-letters; no claim exercises them.

`Counter` over a list of tokens is modelled by `counterList`: its items are
the distinct tokens in first-occurrence order (Python dicts preserve insertion
order), each paired with its occurrence count.  `Counter.most_common(n)` is
documented as `sorted(items, key=count, reverse=True)[:n]` with a stable sort;
it is modelled by a stable insertion sort `sortDesc` followed by `take n`.
-/

/-- Model of the Unicode letter class over the repertoire described above:
ASCII letters, ª, µ, º, and the letters of Latin-1 Supplement / Latin
Extended-A (U+00C0..U+017F minus the two operators × U+00D7 and ÷ U+00F7). -/
def pyIsLetter (c : Char) : Bool :=
  c.isAlpha ||
    (0xC0 ≤ c.toNat && c.toNat ≤ 0x17F && c.toNat != 0xD7 && c.toNat != 0xF7) ||
    c.toNat == 0xAA || c.toNat == 0xB5 || c.toNat == 0xBA

/-- Restriction of Python's `str.lower` to U+0000..U+017F: every code point in
that range whose one-character lowercase differs from itself, paired with that
lowercase (generated from the Unicode simple lowercase mappings). -/
def LOWER_MAP : List (Char × Char) := [
  ('A', 'a'), ('B', 'b'), ('C', 'c'), ('D', 'd'), ('E', 'e'), ('F', 'f'),
  ('G', 'g'), ('H', 'h'), ('I', 'i'), ('J', 'j'), ('K', 'k'), ('L', 'l'),
  ('M', 'm'), ('N', 'n'), ('O', 'o'), ('P', 'p'), ('Q', 'q'), ('R', 'r'),
  ('S', 's'), ('T', 't'), ('U', 'u'), ('V', 'v'), ('W', 'w'), ('X', 'x'),
  ('Y', 'y'), ('Z', 'z'), ('À', 'à'), ('Á', 'á'), ('Â', 'â'), ('Ã', 'ã'),
  ('Ä', 'ä'), ('Å', 'å'), ('Æ', 'æ'), ('Ç', 'ç'), ('È', 'è'), ('É', 'é'),
  ('Ê', 'ê'), ('Ë', 'ë'), ('Ì', 'ì'), ('Í', 'í'), ('Î', 'î'), ('Ï', 'ï'),
  ('Ð', 'ð'), ('Ñ', 'ñ'), ('Ò', 'ò'), ('Ó', 'ó'), ('Ô', 'ô'), ('Õ', 'õ'),
  ('Ö', 'ö'), ('Ø', 'ø'), ('Ù', 'ù'), ('Ú', 'ú'), ('Û', 'û'), ('Ü', 'ü'),
  ('Ý', 'ý'), ('Þ', 'þ'), ('Ā', 'ā'), ('Ă', 'ă'), ('Ą', 'ą'), ('Ć', 'ć'),
  ('Ĉ', 'ĉ'), ('Ċ', 'ċ'), ('Č', 'č'), ('Ď', 'ď'), ('Đ', 'đ'), ('Ē', 'ē'),
  ('Ĕ', 'ĕ'), ('Ė', 'ė'), ('Ę', 'ę'), ('Ě', 'ě'), ('Ĝ', 'ĝ'), ('Ğ', 'ğ'),
  ('Ġ', 'ġ'), ('Ģ', 'ģ'), ('Ĥ', 'ĥ'), ('Ħ', 'ħ'), ('Ĩ', 'ĩ'), ('Ī', 'ī'),
  ('Ĭ', 'ĭ'), ('Į', 'į'), ('Ĳ', 'ĳ'), ('Ĵ', 'ĵ'), ('Ķ', 'ķ'), ('Ĺ', 'ĺ'),
  ('Ļ', 'ļ'), ('Ľ', 'ľ'), ('Ŀ', 'ŀ'), ('Ł', 'ł'), ('Ń', 'ń'), ('Ņ', 'ņ'),
  ('Ň', 'ň'), ('Ŋ', 'ŋ'), ('Ō', 'ō'), ('Ŏ', 'ŏ'), ('Ő', 'ő'), ('Œ', 'œ'),
  ('Ŕ', 'ŕ'), ('Ŗ', 'ŗ'), ('Ř', 'ř'), ('Ś', 'ś'), ('Ŝ', 'ŝ'), ('Ş', 'ş'),
  ('Š', 'š'), ('Ţ', 'ţ'), ('Ť', 'ť'), ('Ŧ', 'ŧ'), ('Ũ', 'ũ'), ('Ū', 'ū'),
  ('Ŭ', 'ŭ'), ('Ů', 'ů'), ('Ű', 'ű'), ('Ų', 'ų'), ('Ŵ', 'ŵ'), ('Ŷ', 'ŷ'),
  ('Ÿ', 'ÿ'), ('Ź', 'ź'), ('Ż', 'ż'), ('Ž', 'ž')]

/-- Model of Python's per-character `str.lower` on the covered repertoire:
look the character up in `LOWER_MAP`, else leave it unchanged. -/
def pyToLower (c : Char) : Char :=
  match LOWER_MAP.find? (fun p => p.1 == c) with
  | some p => p.2
  | none => c

/-- Maximal runs of letters, the denotation of `re.findall(r"[\p\x7bL\x7d]+", s)`:
`letterRunsAux cur cs` scans `cs` with `cur` holding the (reversed) letters of
the run currently being read. -/
def letterRunsAux : List Char → List Char → List (List Char)
  | cur, [] => if cur.isEmpty then [] else [cur.reverse]
  | cur, c :: cs =>
    if pyIsLetter c then letterRunsAux (c :: cur) cs
    else if cur.isEmpty then letterRunsAux [] cs
    else cur.reverse :: letterRunsAux [] cs

/-- Model of `re.findall(r"[\p\x7bL\x7d]+", text.lower(), re.UNICODE)`
(app.py line 98): lowercase the text, then take the maximal letter runs. -/
def tokenize (text : String) : List String :=
  (letterRunsAux [] (text.data.map pyToLower)).map (fun r => String.mk r)

/-- The stop-word set of app.py lines 42-45, transcribed verbatim (the Python
source lists "a" and "se" twice inside a set literal; membership is what
matters). -/
def STOP_WORDS : List String := [
  "a", "and", "are", "as", "at", "be", "by", "for", "from", "how", "in", "is",
  "it", "of", "on", "or", "that", "the", "this", "to", "with",
  "se", "a", "co", "jak", "je", "jsou", "na", "o", "od", "pro", "s", "se",
  "si", "z", "ve", "že", "do", "podle", "které"]

/-- Model of the comprehension
`[t for t in tokens if t not in STOP_WORDS and len(t) > 2]` (app.py line 99). -/
def filterTokens (ts : List String) : List String :=
  ts.filter (fun t => !(STOP_WORDS.contains t) && decide (t.length > 2))

/-- The filtered token stream of a text: app.py lines 98-99 composed. -/
def filteredTokens (text : String) : List String :=
  filterTokens (tokenize text)

/-- The distinct elements of a list in first-occurrence order — the key order
of `collections.Counter(tokens)` (Python dicts preserve insertion order). -/
def dedupFirst : List String → List String
  | [] => []
  | a :: l => a :: (dedupFirst l).filter (fun b => !(b == a))

/-- Model of `Counter(tokens).items()`: each distinct token in first-occurrence
order, paired with its occurrence count (app.py line 100). -/
def counterList (ts : List String) : List (String × Nat) :=
  (dedupFirst ts).map (fun t => (t, ts.count t))

/-- Stable descending insertion by count: the new pair goes in front of the
first existing pair whose count does not exceed it, so among equal counts
earlier items stay first (matching Python's stable `sorted`/`nlargest`). -/
def insertDesc (p : String × Nat) : List (String × Nat) → List (String × Nat)
  | [] => [p]
  | q :: l => if q.2 ≤ p.2 then p :: q :: l else q :: insertDesc p l

/-- Stable sort by count, descending — the order `Counter.most_common` uses
(`sorted(items, key=itemgetter(1), reverse=True)`, a stable sort). -/
def sortDesc : List (String × Nat) → List (String × Nat)
  | [] => []
  | p :: l => insertDesc p (sortDesc l)

/-- Model of `Counter.most_common(n)`: the count-descending stable sort of the
counter's items, truncated to the first `n` (equally, `heapq.nlargest`). -/
def mostCommon (n : Nat) (l : List (String × Nat)) : List (String × Nat) :=
  (sortDesc l).take n

/-- Model of `keyword_frequency(text, top_n)` (app.py lines 95-101). -/
def keyword_frequency (text : String) (top_n : Nat) : List (String × Nat) :=
  mostCommon top_n (counterList (filteredTokens text))

/-- Model of the `all_text` accumulation of the analysis loop (app.py lines
172, 196): `all_text = ""`, then `all_text += " " + text` per document. -/
def all_text (docs : List String) : String :=
  docs.foldl (fun acc t => acc ++ " " ++ t) ""

/-- Model of `global_kw = keyword_frequency(all_text)` (app.py line 199),
with the default `top_n = 20`. -/
def global_kw (corpus : List String) : List (String × Nat) :=
  keyword_frequency (all_text corpus) 20

/-- Model of `fetch_html` (app.py lines 65-78): `some body` models a fetched
response whose `raise_for_status` passed, `none` models any
`requests.RequestException` (connection error, timeout, HTTP error status) —
in that case the function returns `""`. -/
def fetch_html (response : Option String) : String :=
  match response with
  | some body => body
  | none => ""

/-- Modelled from the spec (for comparison with the code): document frequency
`df(t)` = number of documents containing term t at least once. -/
def specDf (corpus : List String) (t : String) : Nat :=
  (corpus.filter (fun d => (filteredTokens d).contains t)).length

/-- Modelled from the spec (for comparison with the code): term frequency
`tf(t)` = total occurrence count of t across the whole corpus. -/
def specTf (corpus : List String) (t : String) : Nat :=
  (corpus.map (fun d => (filteredTokens d).count t)).sum

/-- Modelled from the spec (for comparison with the code): the claimed score
`tf(t) * idf(t)` with `idf(t) = ln(N / (1 + df(t)))`, N the document count. -/
noncomputable def tfidfScore (corpus : List String) (t : String) : ℝ :=
  (specTf corpus t : ℝ) *
    Real.log ((corpus.length : ℝ) / (1 + (specDf corpus t : ℝ)))

/-- Modelled from the spec (for comparison with the code): the representative
surface form of a stem — the first original term mapping to it. -/
def representative (stem : String → String) (ts : List String) (s : String) :
    String :=
  (ts.filter (fun t => stem t == s)).headD ""

/-- Modelled from the spec (for comparison with the code): counting on stems
with each stem reported under its representative surface form, ranked by
count descending. -/
def specStemRanking (stem : String → String) (ts : List String) :
    List (String × Nat) :=
  sortDesc ((dedupFirst (ts.map stem)).map
    (fun s => (representative stem ts s, (ts.map stem).count s)))

/-- Modelled from the spec (for comparison with the code): a minimal
language-specific suffix-stripping reduction for Czech nominal inflection
("suffix-stripping per Czech morphological rules"), sufficient for the
paradigm exercised in the counterexample: one final inflectional vowel is
stripped. -/
def czStem (t : String) : String :=
  match t.data.getLast? with
  | some c =>
    if c ∈ ['a', 'e', 'i', 'o', 'u', 'y', 'á', 'é', 'ě', 'í', 'ů', 'ý'] then
      String.mk t.data.dropLast
    else t
  | none => t

/-! ### Character and tokenizer lemmas -/

set_option maxRecDepth 4000 in
/-- No entry of `LOWER_MAP` maps to a character that is itself a key: the
lowercase repertoire is disjoint from the uppercase one. -/
theorem LOWER_MAP_lower_not_key :
    ∀ q ∈ LOWER_MAP, LOWER_MAP.find? (fun r => r.1 == q.2) = none := by decide

/-- Lowercasing is idempotent: `pyToLower` fixes its own image. -/
theorem pyToLower_idem (c : Char) : pyToLower (pyToLower c) = pyToLower c := by
  unfold pyToLower
  cases h : LOWER_MAP.find? (fun p => p.1 == c) with
  | none => simp [h]
  | some p => simp [h, LOWER_MAP_lower_not_key p (List.mem_of_find?_eq_some h)]

/-- A non-letter breaks the scan: the runs of `l1 ++ c :: l2` are the runs of
`l1` (closing any open run) followed by the runs of `l2`. -/
theorem letterRunsAux_break (l2 : List Char) {c : Char}
    (hc : pyIsLetter c = false) :
    ∀ (l1 cur : List Char),
      letterRunsAux cur (l1 ++ c :: l2) =
        letterRunsAux cur l1 ++ letterRunsAux [] l2 := by
  intro l1
  induction l1 with
  | nil =>
    intro cur
    by_cases hcur : cur.isEmpty <;>
      simp [letterRunsAux, hcur, hc]
  | cons d l1 ih =>
    intro cur
    by_cases hd : pyIsLetter d
    · simp [letterRunsAux, hd, ih]
    · by_cases hcur : cur.isEmpty <;> simp [letterRunsAux, hd, hcur, ih]

/-- Tokenizing a space-separated concatenation tokenizes the parts. -/
theorem tokenize_append_sep (s t : String) :
    tokenize (s ++ " " ++ t) = tokenize s ++ tokenize t := by
  unfold tokenize
  have hdata : (s ++ " " ++ t).data = s.data ++ ' ' :: t.data := by
    simp [String.data_append]
  have hsp : pyToLower ' ' = ' ' := by decide
  have hl : pyIsLetter ' ' = false := by decide
  rw [hdata, List.map_append, List.map_cons, hsp,
    letterRunsAux_break (t.data.map pyToLower) hl (s.data.map pyToLower) [],
    List.map_append]

/-- Unfolding the `all_text` fold: its tokens are the concatenation of the
individual documents' tokens. -/
theorem tokenize_foldl (docs : List String) :
    ∀ acc : String,
      tokenize (docs.foldl (fun a t => a ++ " " ++ t) acc) =
        tokenize acc ++ (docs.map tokenize).flatten := by
  induction docs with
  | nil => intro acc; simp
  | cons d ds ih =>
    intro acc
    simp only [List.foldl_cons, List.map_cons, List.flatten_cons]
    rw [ih, tokenize_append_sep, List.append_assoc]

/-- The tokens of the concatenated corpus text are exactly the per-document
tokens, in document order. -/
theorem tokenize_all_text (docs : List String) :
    tokenize (all_text docs) = (docs.map tokenize).flatten := by
  have h0 : tokenize "" = [] := by decide
  have h := tokenize_foldl docs ""
  rw [h0] at h
  simpa [all_text] using h

/-- The filtered tokens of the concatenated corpus text are the per-document
filtered tokens, in document order. -/
theorem filteredTokens_all_text (docs : List String) :
    filteredTokens (all_text docs) = (docs.map filteredTokens).flatten := by
  unfold filteredTokens filterTokens
  rw [tokenize_all_text, List.filter_flatten, List.map_map]
  rfl

/-- Every character of every run produced by the scan comes from the open run
or from the input. -/
theorem mem_letterRunsAux {r : List Char} {ch : Char} (hch : ch ∈ r) :
    ∀ (l cur : List Char), r ∈ letterRunsAux cur l → ch ∈ cur ∨ ch ∈ l := by
  intro l
  induction l with
  | nil =>
    intro cur hr
    by_cases hcur : cur.isEmpty
    · simp [letterRunsAux, hcur] at hr
    · simp [letterRunsAux, hcur] at hr
      subst hr
      exact Or.inl (List.mem_reverse.1 hch)
  | cons c cs ih =>
    intro cur hr
    by_cases hc : pyIsLetter c
    · simp only [letterRunsAux, if_pos hc] at hr
      rcases ih _ hr with h | h
      · rcases List.mem_cons.1 h with rfl | h
        · exact Or.inr (List.mem_cons_self _ _)
        · exact Or.inl h
      · exact Or.inr (List.mem_cons_of_mem _ h)
    · by_cases hcur : cur.isEmpty
      · simp only [letterRunsAux, if_neg hc, if_pos hcur] at hr
        rcases ih _ hr with h | h
        · simp at h
        · exact Or.inr (List.mem_cons_of_mem _ h)
      · simp only [letterRunsAux, if_neg hc, if_neg hcur] at hr
        rcases List.mem_cons.1 hr with rfl | hr
        · exact Or.inl (List.mem_reverse.1 hch)
        · rcases ih _ hr with h | h
          · simp at h
          · exact Or.inr (List.mem_cons_of_mem _ h)

/-- Every character of a token is already lowercase (fixed by `pyToLower`),
because tokens are cut out of the lowercased text. -/
theorem mem_tokenize_lower {t text : String} (ht : t ∈ tokenize text) :
    ∀ ch ∈ t.data, pyToLower ch = ch := by
  intro ch hch
  unfold tokenize at ht
  rcases List.mem_map.1 ht with ⟨r, hr, rfl⟩
  have hchr : ch ∈ r := hch
  rcases mem_letterRunsAux hchr _ [] hr with h | h
  · simp at h
  · rcases List.mem_map.1 h with ⟨d, _, rfl⟩
    exact pyToLower_idem d

/-! ### Counter lemmas -/

/-- Membership in the deduplicated key list is membership in the token list. -/
theorem mem_dedupFirst {a : String} :
    ∀ {l : List String}, a ∈ dedupFirst l ↔ a ∈ l := by
  intro l
  induction l with
  | nil => simp [dedupFirst]
  | cons b l ih =>
    simp only [dedupFirst, List.mem_cons, List.mem_filter]
    constructor
    · rintro (rfl | ⟨h, _⟩)
      · exact Or.inl rfl
      · exact Or.inr (ih.1 h)
    · rintro (rfl | h)
      · exact Or.inl rfl
      · by_cases hab : a = b
        · exact Or.inl hab
        · exact Or.inr ⟨ih.2 h, by simp [hab]⟩

/-- The key list of the counter has no duplicates. -/
theorem nodup_dedupFirst : ∀ l : List String, (dedupFirst l).Nodup := by
  intro l
  induction l with
  | nil => simp [dedupFirst]
  | cons b l ih =>
    simp only [dedupFirst]
    refine List.Nodup.cons ?_ (ih.filter _)
    intro hmem
    have hb := (List.mem_filter.1 hmem).2
    simp at hb

/-- The key list of the counter is a sublist of the token list: first
occurrences appear in token-stream order. -/
theorem dedupFirst_sublist : ∀ l : List String, (dedupFirst l).Sublist l := by
  intro l
  induction l with
  | nil => simp [dedupFirst]
  | cons b l ih =>
    simp only [dedupFirst]
    exact ((List.filter_sublist _).trans ih).cons₂ b

/-- Filtering a duplicate-free list for one value yields that value exactly
when it is present. -/
theorem filter_beq_of_nodup {a : String} :
    ∀ {l : List String}, l.Nodup →
      l.filter (fun b => b == a) = if a ∈ l then [a] else [] := by
  intro l
  induction l with
  | nil => simp
  | cons b l ih =>
    intro hnd
    have htl := (List.nodup_cons.1 hnd).2
    by_cases hba : b = a
    · subst hba
      have hal : b ∉ l := (List.nodup_cons.1 hnd).1
      simp [List.filter_cons, ih htl, hal]
    · simp [List.filter_cons, hba, ih htl, List.mem_cons, Ne.symm hba]

/-- A map-sum over a list splits along any Boolean filter. -/
theorem sum_map_filter_split (f : String → Nat) (p : String → Bool) :
    ∀ l : List String,
      ((l.filter p).map f).sum + ((l.filter (fun x => !(p x))).map f).sum =
        (l.map f).sum := by
  intro l
  induction l with
  | nil => simp
  | cons a l ih =>
    by_cases ha : p a <;> simp [List.filter_cons, ha] <;> omega

/-- The counts of the counter, in key order. -/
theorem counterList_snd (ts : List String) :
    (counterList ts).map Prod.snd = (dedupFirst ts).map (fun t => ts.count t) := by
  simp [counterList, List.map_map]

/-- The counter's counts add up to the length of the token list. -/
theorem counterList_sum : ∀ ts : List String,
    ((counterList ts).map Prod.snd).sum = ts.length := by
  intro ts
  induction ts with
  | nil => rfl
  | cons a l ih =>
    rw [counterList_snd] at ih ⊢
    simp only [dedupFirst, List.map_cons, List.sum_cons]
    have hcount : ∀ t ∈ (dedupFirst l).filter (fun b => !(b == a)),
        (a :: l).count t = l.count t := by
      intro t htmem
      have ht := (List.mem_filter.1 htmem).2
      have : t ≠ a := by simpa using ht
      exact List.count_cons_of_ne this l
    rw [List.map_congr_left hcount]
    have hsplit := sum_map_filter_split (fun t => l.count t)
      (fun b => b == a) (dedupFirst l)
    have hfil := @filter_beq_of_nodup a (dedupFirst l) (nodup_dedupFirst l)
    have hone : (((dedupFirst l).filter (fun b => b == a)).map
        (fun t => l.count t)).sum = l.count a := by
      by_cases hal : a ∈ l
      · rw [hfil, if_pos (mem_dedupFirst.2 hal)]
        simp
      · rw [hfil, if_neg (fun h => hal (mem_dedupFirst.1 h))]
        simp [List.count_eq_zero.2 hal]
    rw [hone] at hsplit
    rw [List.count_cons_self]
    simp only [List.length_cons]
    omega

/-! ### Sort lemmas -/

/-- Insertion permutes. -/
theorem insertDesc_perm (p : String × Nat) :
    ∀ l : List (String × Nat), (insertDesc p l).Perm (p :: l) := by
  intro l
  induction l with
  | nil => exact List.Perm.refl _
  | cons q l ih =>
    simp only [insertDesc]
    by_cases h : q.2 ≤ p.2
    · rw [if_pos h]
    · rw [if_neg h]
      exact (ih.cons q).trans (List.Perm.swap p q l)

/-- The stable sort permutes the counter items. -/
theorem sortDesc_perm : ∀ l : List (String × Nat), (sortDesc l).Perm l := by
  intro l
  induction l with
  | nil => exact List.Perm.refl _
  | cons p l ih =>
    exact (insertDesc_perm p (sortDesc l)).trans (ih.cons p)

/-- Insertion preserves the count-descending order. -/
theorem insertDesc_sorted {p : String × Nat} :
    ∀ {l : List (String × Nat)},
      List.Pairwise (fun a b : String × Nat => b.2 ≤ a.2) l →
      List.Pairwise (fun a b : String × Nat => b.2 ≤ a.2) (insertDesc p l) := by
  intro l
  induction l with
  | nil => intro _; simp [insertDesc]
  | cons q l ih =>
    intro h
    have hq := List.pairwise_cons.1 h
    simp only [insertDesc]
    by_cases hqp : q.2 ≤ p.2
    · rw [if_pos hqp]
      refine List.Pairwise.cons ?_ h
      intro b hb
      rcases List.mem_cons.1 hb with rfl | hbl
      · exact hqp
      · exact le_trans (hq.1 b hbl) hqp
    · rw [if_neg hqp]
      refine List.Pairwise.cons ?_ (ih hq.2)
      intro b hb
      have hb' : b ∈ p :: l := (insertDesc_perm p l).mem_iff.1 hb
      rcases List.mem_cons.1 hb' with rfl | hbl
      · exact Nat.le_of_lt (Nat.lt_of_not_le hqp)
      · exact hq.1 b hbl

/-- The ranking is sorted non-increasing by count. -/
theorem sortDesc_sorted : ∀ l : List (String × Nat),
    List.Pairwise (fun a b : String × Nat => b.2 ≤ a.2) (sortDesc l) := by
  intro l
  induction l with
  | nil => simp [sortDesc]
  | cons p l ih => exact insertDesc_sorted ih

/-- Stability of insertion: among the pairs carrying one fixed count, the
inserted pair lands in front exactly when it carries that count, and the rest
keep their order (every pair it passes over has a strictly larger count). -/
theorem insertDesc_filter (c : Nat) (p : String × Nat) :
    ∀ l : List (String × Nat),
      (insertDesc p l).filter (fun q => q.2 == c) =
        if p.2 == c then p :: l.filter (fun q => q.2 == c)
        else l.filter (fun q => q.2 == c) := by
  intro l
  induction l with
  | nil =>
    by_cases hpc : p.2 == c <;> simp [insertDesc, List.filter_cons, hpc]
  | cons q l ih =>
    simp only [insertDesc]
    by_cases hq : q.2 ≤ p.2
    · rw [if_pos hq]
      by_cases hpc : p.2 == c <;> simp [List.filter_cons, hpc]
    · rw [if_neg hq]
      by_cases hpc : p.2 == c
      · have hpc' : p.2 = c := by simpa using hpc
        have hqc : (q.2 == c) = false := by
          have : c < q.2 := by omega
          simp [Nat.ne_of_gt this]
        simp [List.filter_cons, hqc, ih, hpc]
      · by_cases hqc : q.2 == c <;> simp [List.filter_cons, hqc, ih, hpc]

/-- Stability of the sort: the pairs carrying one fixed count appear in the
same order as in the counter's item list (first-occurrence order). -/
theorem sortDesc_filter (c : Nat) : ∀ l : List (String × Nat),
    (sortDesc l).filter (fun q => q.2 == c) = l.filter (fun q => q.2 == c) := by
  intro l
  induction l with
  | nil => rfl
  | cons p l ih =>
    simp only [sortDesc]
    rw [insertDesc_filter]
    by_cases hpc : p.2 == c <;> simp [List.filter_cons, hpc, ih]

/-! ### Pipeline membership lemmas -/

/-- Every counter item is a token paired with its occurrence count. -/
theorem mem_counterList {p : String × Nat} {ts : List String}
    (hp : p ∈ counterList ts) : p.1 ∈ ts ∧ p.2 = ts.count p.1 := by
  rcases List.mem_map.1 hp with ⟨t, ht, rfl⟩
  exact ⟨mem_dedupFirst.1 ht, rfl⟩

/-- Every reported keyword is a filtered token paired with its verbatim
occurrence count in the filtered token stream. -/
theorem mem_keyword_frequency {p : String × Nat} {text : String} {n : Nat}
    (hp : p ∈ keyword_frequency text n) :
    p.1 ∈ filteredTokens text ∧ p.2 = (filteredTokens text).count p.1 := by
  simp only [keyword_frequency, mostCommon] at hp
  have h1 : p ∈ sortDesc (counterList (filteredTokens text)) :=
    (List.take_sublist n _).subset hp
  exact mem_counterList ((sortDesc_perm _).mem_iff.1 h1)

/-- What the token filter lets through: a token of the text that is not a
stop word and has more than two characters. -/
theorem mem_filterTokens {t : String} {ts : List String}
    (h : t ∈ filterTokens ts) :
    t ∈ ts ∧ STOP_WORDS.contains t = false ∧ 2 < t.length := by
  have h1 := List.mem_filter.1 h
  have h2 := h1.2
  simp only [Bool.and_eq_true, Bool.not_eq_true', decide_eq_true_eq] at h2
  exact ⟨h1.1, h2.1, h2.2⟩

/-- An empty document anywhere in the corpus leaves the corpus-level keyword
ranking unchanged: it contributes no tokens. -/
theorem global_kw_drop_empty (pre post : List String) :
    global_kw (pre ++ "" :: post) = global_kw (pre ++ post) := by
  have h0 : filteredTokens "" = [] := by decide
  have hts : filteredTokens (all_text (pre ++ "" :: post)) =
      filteredTokens (all_text (pre ++ post)) := by
    rw [filteredTokens_all_text, filteredTokens_all_text]
    simp [List.map_append, List.flatten_append, h0]
  unfold global_kw keyword_frequency
  rw [hts]

/-! ### Claim theorems -/

/-- Claim C1 (counterexample): the corpus-level ranking the code produces is
not ordered by the claimed score tf(t)·ln(N/(1+df(t))): on the corpus
["kočka pes kočka", "pes pes auto"] the code ranks "pes" first, yet the
claimed score of "pes" (3·ln(2/3) < 0) is strictly below that of the
second-ranked "kočka" (2·ln(2/2) = 0). -/
theorem global_kw_not_tfidf_cex :
    global_kw ["kočka pes kočka", "pes pes auto"] =
      [("pes", 3), ("kočka", 2), ("auto", 1)] ∧
    tfidfScore ["kočka pes kočka", "pes pes auto"] "pes" <
      tfidfScore ["kočka pes kočka", "pes pes auto"] "kočka" := by
  constructor
  · decide
  · have h1 : specTf ["kočka pes kočka", "pes pes auto"] "pes" = 3 := by decide
    have h2 : specDf ["kočka pes kočka", "pes pes auto"] "pes" = 2 := by decide
    have h3 : specTf ["kočka pes kočka", "pes pes auto"] "kočka" = 2 := by
      decide
    have h4 : specDf ["kočka pes kočka", "pes pes auto"] "kočka" = 1 := by
      decide
    have hN : (["kočka pes kočka", "pes pes auto"] : List String).length = 2 :=
      rfl
    unfold tfidfScore
    rw [h1, h2, h3, h4, hN]
    have e1 : ((2 : Nat) : ℝ) / (1 + ((2 : Nat) : ℝ)) = 2 / 3 := by norm_num
    have e2 : ((2 : Nat) : ℝ) / (1 + ((1 : Nat) : ℝ)) = 1 := by norm_num
    rw [e1, e2, Real.log_one, mul_zero]
    have hlog : Real.log ((2 : ℝ) / 3) < 0 :=
      Real.log_neg (by norm_num) (by norm_num)
    have h3pos : (0 : ℝ) < ((3 : Nat) : ℝ) := by norm_num
    exact mul_neg_of_pos_of_neg h3pos hlog

/-- Claim C1 (amended): the corpus-level keyword ranking scores each term by
its raw total occurrence count tf(t) over the concatenated corpus text — no
idf factor — and returns the top 20 terms in non-increasing count order. -/
theorem global_kw_tf_ranking (corpus : List String) :
    List.Pairwise (fun a b : String × Nat => b.2 ≤ a.2) (global_kw corpus) ∧
    (global_kw corpus).length ≤ 20 ∧
    ∀ p ∈ global_kw corpus,
      p.2 = (filteredTokens (all_text corpus)).count p.1 ∧
      p.2 = specTf corpus p.1 := by
  refine ⟨?_, ?_, ?_⟩
  · exact List.Pairwise.sublist (List.take_sublist 20 _) (sortDesc_sorted _)
  · simp only [global_kw, keyword_frequency, mostCommon]
    rw [List.length_take]
    omega
  · intro p hp
    simp only [global_kw] at hp
    have h := mem_keyword_frequency hp
    refine ⟨h.2, ?_⟩
    rw [h.2, filteredTokens_all_text, List.count_flatten]
    simp only [specTf, List.map_map]
    rfl

/-- Claim C1 (amended) witness at the scenario corpus and its top pair. -/
theorem global_kw_tf_ranking_witness :
    (("pes", 3) : String × Nat).2 =
      (filteredTokens
        (all_text ["kočka pes kočka", "pes pes auto"])).count
        (("pes", 3) : String × Nat).1 ∧
    (("pes", 3) : String × Nat).2 =
      specTf ["kočka pes kočka", "pes pes auto"]
        (("pes", 3) : String × Nat).1 :=
  (global_kw_tf_ranking ["kočka pes kočka", "pes pes auto"]).2.2
    ("pes", 3) (by decide)

/-- Claim C2: under the denotation of the pattern, empty or non-alphabetic
input yields the empty token sequence, and letters are cut at digits,
underscores and punctuation after lowercasing (the shipped code instead
raises `re.error: bad escape \p` on every call, because CPython's `re` does
not support the `\p\x7bL\x7d` class — see the results file). -/
theorem tokenize_empty_nonalpha_eval :
    tokenize "" = [] ∧
    tokenize "123 __ ,.!" = [] ∧
    keyword_frequency "" 20 = [] ∧
    tokenize "Kočka, pes_123!" = ["kočka", "pes"] := by
  refine ⟨by decide, by decide, by decide, by decide⟩

/-- Claim C3: for any term sequence, the frequency ranking is sorted
non-increasing by count for every truncation; among equal counts the order of
the counter's item list is kept, whose keys are the distinct terms in
first-occurrence order (a duplicate-free sublist of the term sequence); and
the counts of the full, non-truncated ranking sum to the length of the term
sequence. -/
theorem frequency_counter_sorted_stable_sum (ts : List String) :
    (∀ n, List.Pairwise (fun a b : String × Nat => b.2 ≤ a.2)
        (mostCommon n (counterList ts))) ∧
    (∀ c, (sortDesc (counterList ts)).filter (fun q => q.2 == c) =
        (counterList ts).filter (fun q => q.2 == c)) ∧
    (counterList ts).map Prod.fst = dedupFirst ts ∧
    ((dedupFirst ts).Sublist ts ∧ (dedupFirst ts).Nodup) ∧
    ((sortDesc (counterList ts)).map Prod.snd).sum = ts.length := by
  refine ⟨?_, fun c => sortDesc_filter c _, ?_,
    ⟨dedupFirst_sublist ts, nodup_dedupFirst ts⟩, ?_⟩
  · intro n
    exact List.Pairwise.sublist (List.take_sublist n _) (sortDesc_sorted _)
  · simp only [counterList, List.map_map]
    exact List.map_id _
  · rw [((sortDesc_perm (counterList ts)).map Prod.snd).sum_eq,
      counterList_sum]

/-- Claim C4 (counterexample): top_n = 0 does not signal a configuration
error — the code silently returns the empty list on a non-empty text. -/
theorem keyword_frequency_top0_cex :
    keyword_frequency "kočka pes kočka" 0 = [] := by decide

/-- Claim C4 (amended): for every text, top_n = 0 makes the frequency counter
silently return the empty list; no validation or error signal exists, so a
zero limit is indistinguishable from data absence in the output. -/
theorem keyword_frequency_top0 (text : String) :
    keyword_frequency text 0 = [] := by
  simp [keyword_frequency, mostCommon]

/-- Claim C5 (counterexample): no stemming happens before counting: under the
spec's Czech suffix-stripping reduction, "kočka" and "kočky" share a stem, so
stem-based counting with a first-occurrence representative would report the
single entry ("kočka", 2) — the code instead reports the two inflected forms
as separate entries of count 1 each. -/
theorem no_stemming_cex :
    czStem "kočky" = czStem "kočka" ∧
    specStemRanking czStem (filteredTokens "kočka pes kočky") =
      [("kočka", 2), ("pes", 1)] ∧
    keyword_frequency "kočka pes kočky" 20 =
      [("kočka", 1), ("pes", 1), ("kočky", 1)] := by
  refine ⟨by decide, by decide, by decide⟩

/-- Claim C5 (amended): the pipeline applies no stemming: every reported
keyword occurs verbatim as a filtered token and its count is that verbatim
occurrence count — equivalently, the stem map is the identity and each term
is its own representative surface form. -/
theorem keywords_are_surface_terms (text : String) (n : Nat)
    (p : String × Nat) (hp : p ∈ keyword_frequency text n) :
    p.1 ∈ filteredTokens text ∧ p.2 = (filteredTokens text).count p.1 :=
  mem_keyword_frequency hp

/-- Claim C5 (amended) witness at a concrete document and pair. -/
theorem keywords_are_surface_terms_witness :
    (("kočka", 2) : String × Nat).1 ∈ filteredTokens "kočka pes kočka" ∧
    (("kočka", 2) : String × Nat).2 =
      (filteredTokens "kočka pes kočka").count
        (("kočka", 2) : String × Nat).1 :=
  keywords_are_surface_terms "kočka pes kočka" 20 ("kočka", 2) (by decide)

/-- Claim C6: end-to-end scenario: the per-document rankings and the
aggregated corpus ranking on the corpus ["kočka pes kočka", "pes pes auto"]
come out exactly as specified. -/
theorem corpus_scenario_rankings :
    keyword_frequency "kočka pes kočka" 20 = [("kočka", 2), ("pes", 1)] ∧
    keyword_frequency "pes pes auto" 20 = [("pes", 2), ("auto", 1)] ∧
    global_kw ["kočka pes kočka", "pes pes auto"] =
      [("pes", 3), ("kočka", 2), ("auto", 1)] := by
  refine ⟨by decide, by decide, by decide⟩

/-- Claim C7: an empty corpus — no documents, or only empty texts — yields
the empty corpus ranking (the pipeline is total and contains no division to
fault); an empty document anywhere contributes nothing to the ranking, to any
term count, or to any document frequency; and the scenario corpus with one
empty document ranks exactly the non-empty document's terms. -/
theorem empty_corpus_ranking :
    global_kw [] = [] ∧
    global_kw ["", ""] = [] ∧
    (∀ pre post : List String,
      global_kw (pre ++ "" :: post) = global_kw (pre ++ post)) ∧
    (∀ (pre post : List String) (t : String),
      specDf (pre ++ "" :: post) t = specDf (pre ++ post) t ∧
      specTf (pre ++ "" :: post) t = specTf (pre ++ post) t) ∧
    global_kw ["", "nějaký text zde"] =
      [("nějaký", 1), ("text", 1), ("zde", 1)] := by
  refine ⟨by decide, by decide, global_kw_drop_empty, ?_, by decide⟩
  intro pre post t
  have h0 : filteredTokens "" = [] := by decide
  constructor
  · simp [specDf, List.filter_append, List.filter_cons, h0]
  · simp [specTf, List.map_append, h0]

/-- Claim C8: a failed fetch yields the empty text for that document only;
the empty text produces no terms at any truncation, and a corpus containing
a failed document ranks exactly as the corpus without it — the core sees only
the empty string, never a transport-level error (the model's fetch is total:
every `RequestException` is mapped to `""`). -/
theorem fetch_failure_isolated :
    fetch_html none = "" ∧
    (∀ n, keyword_frequency (fetch_html none) n = []) ∧
    (∀ pre post : List String,
      global_kw (pre ++ fetch_html none :: post) = global_kw (pre ++ post)) := by
  refine ⟨rfl, ?_, ?_⟩
  · intro n
    show keyword_frequency "" n = []
    have h0 : counterList (filteredTokens "") = [] := by decide
    simp [keyword_frequency, mostCommon, h0, sortDesc]
  · intro pre post
    exact global_kw_drop_empty pre post

/-- Claim C9: the token filter (stop-word and length filtering) is
idempotent: filtering an already-filtered term sequence returns it unchanged,
order preserved. -/
theorem filterTokens_idem (ts : List String) :
    filterTokens (filterTokens ts) = filterTokens ts := by
  unfold filterTokens
  rw [List.filter_filter]
  simp [Bool.and_self]

/-- Claim C10: every output of keyword_frequency has at most top_n entries,
and each reported pair carries a count of at least 1 and a term that has at
least 3 characters, is no stop word, and is lowercase (fixed by the
lowercasing map). -/
theorem keyword_frequency_invariants (text : String) (top_n : Nat) :
    (keyword_frequency text top_n).length ≤ top_n ∧
    ∀ p ∈ keyword_frequency text top_n,
      1 ≤ p.2 ∧ 3 ≤ p.1.length ∧ STOP_WORDS.contains p.1 = false ∧
      ∀ ch ∈ p.1.data, pyToLower ch = ch := by
  constructor
  · simp only [keyword_frequency, mostCommon]
    rw [List.length_take]
    omega
  · intro p hp
    have h := mem_keyword_frequency hp
    have hf := mem_filterTokens h.1
    refine ⟨?_, hf.2.2, hf.2.1, mem_tokenize_lower hf.1⟩
    rw [h.2]
    exact List.count_pos_iff.2 h.1

/-- Claim C10 witness at a concrete document, truncation and pair. -/
theorem keyword_frequency_invariants_witness :
    (keyword_frequency "kočka pes kočka" 20).length ≤ 20 ∧
    (1 ≤ (("kočka", 2) : String × Nat).2 ∧
     3 ≤ (("kočka", 2) : String × Nat).1.length ∧
     STOP_WORDS.contains (("kočka", 2) : String × Nat).1 = false ∧
     ∀ ch ∈ (("kočka", 2) : String × Nat).1.data, pyToLower ch = ch) :=
  ⟨(keyword_frequency_invariants "kočka pes kočka" 20).1,
   (keyword_frequency_invariants "kočka pes kočka" 20).2 ("kočka", 2)
     (by decide)⟩
